import Mathlib

/-!
Shallow embedding of the mid-autumn-backend leaderboard server
(`src/server.py`) and verification of its specification claims.

Conventions of the embedding:
* Python `float` scores are modelled as `ℚ` (JSON numbers; no float
  rounding is exercised by the code paths under study).
* Python `str.strip()` is modelled by `pyStrip`.
* Python dict records are modelled by the `Record` structure; the
  handler normalises missing fields to `''` / `0` via `or` defaults,
  which the structure fields capture directly.
* Exceptions that the source swallows are modelled by total functions;
  fallible file writes are modelled by explicit success oracles.
-/

/-! ### Computable string primitives

Python `str.strip`, `str.startswith`, `str.endswith` and code-point
string comparison, written by structural recursion over the character
list so that every theorem witness evaluates inside the kernel. -/

/-- Model of Python `str.strip()`: drop leading and trailing whitespace. -/
def pyStrip (s : String) : String :=
  ⟨((s.data.dropWhile Char.isWhitespace).reverse.dropWhile Char.isWhitespace).reverse⟩

/-- Model of Python `str.startswith`. -/
def strStartsWith (s p : String) : Bool :=
  p.data.isPrefixOf s.data

/-- Model of Python `str.endswith`. -/
def strEndsWith (s p : String) : Bool :=
  p.data.reverse.isPrefixOf s.data.reverse

/-- Lexicographic code-point comparison of character lists: Python's
`<=` on strings. -/
def listLexLE : List Char → List Char → Bool
  | [], _ => true
  | _ :: _, [] => false
  | a :: as, b :: bs =>
      if a.toNat < b.toNat then true
      else if b.toNat < a.toNat then false
      else listLexLE as bs

/-- Python string comparison `a <= b` (code-point lexicographic). -/
def strLE (a b : String) : Bool :=
  listLexLE a.data b.data

theorem listLexLE_total : ∀ as bs : List Char,
    listLexLE as bs = true ∨ listLexLE bs as = true
  | [], _ => Or.inl rfl
  | _ :: _, [] => Or.inr rfl
  | a :: as, b :: bs => by
    rcases Nat.lt_trichotomy a.toNat b.toNat with h | h | h
    · left; simp [listLexLE, h]
    · rcases listLexLE_total as bs with ih | ih
      · left; simp [listLexLE, h, Nat.lt_irrefl, ih]
      · right; simp [listLexLE, h.symm, Nat.lt_irrefl, ih]
    · right; simp [listLexLE, h]

theorem listLexLE_trans : ∀ as bs cs : List Char,
    listLexLE as bs = true → listLexLE bs cs = true → listLexLE as cs = true
  | [], _, _, _, _ => rfl
  | _ :: _, [], _, h, _ => by simp [listLexLE] at h
  | _ :: _, _ :: _, [], _, h => by simp [listLexLE] at h
  | a :: as, b :: bs, c :: cs, h1, h2 => by
    simp only [listLexLE] at h1 h2 ⊢
    rcases Nat.lt_trichotomy a.toNat b.toNat with hab | hab | hab
    · rcases Nat.lt_trichotomy b.toNat c.toNat with hbc | hbc | hbc
      · simp [show a.toNat < c.toNat by omega]
      · simp [show a.toNat < c.toNat by omega]
      · simp [show ¬ (b.toNat < c.toNat) by omega, hbc] at h2
    · rcases Nat.lt_trichotomy b.toNat c.toNat with hbc | hbc | hbc
      · simp [show a.toNat < c.toNat by omega]
      · simp only [show ¬ (a.toNat < b.toNat) by omega,
          show ¬ (b.toNat < a.toNat) by omega, if_neg, ite_false, if_false] at h1
        simp only [show ¬ (b.toNat < c.toNat) by omega,
          show ¬ (c.toNat < b.toNat) by omega, if_neg, ite_false, if_false] at h2
        simp only [show ¬ (a.toNat < c.toNat) by omega,
          show ¬ (c.toNat < a.toNat) by omega, if_neg, ite_false, if_false]
        exact listLexLE_trans as bs cs h1 h2
      · simp [show ¬ (b.toNat < c.toNat) by omega, hbc] at h2
    · simp [show ¬ (a.toNat < b.toNat) by omega, hab] at h1

/-- Record: one leaderboard entry as stored in `leaderboard.json`. -/
structure Record where
  user_id : String
  name : String
  score : ℚ
  avatar : String
  updated_at : String
deriving DecidableEq, Repr

/-- Sort relation used by both `do_GET` and `do_POST`:
Python `key=lambda x: (-x.get('score', 0), x.get('updated_at', ''))`,
i.e. descending score, ties by ascending `updated_at`. -/
def rankLE (a b : Record) : Prop :=
  b.score < a.score ∨ (a.score = b.score ∧ strLE a.updated_at b.updated_at = true)

instance : DecidableRel rankLE := fun a b => by
  unfold rankLE; infer_instance

instance : IsTotal Record rankLE := by
  constructor
  intro a b
  rcases lt_trichotomy a.score b.score with h | h | h
  · exact Or.inr (Or.inl h)
  · rcases listLexLE_total a.updated_at.data b.updated_at.data with h2 | h2
    · exact Or.inl (Or.inr ⟨h, h2⟩)
    · exact Or.inr (Or.inr ⟨h.symm, h2⟩)
  · exact Or.inl (Or.inl h)

instance : IsTrans Record rankLE := by
  constructor
  intro a b c hab hbc
  rcases hab with h1 | ⟨h1, h1'⟩
  · rcases hbc with h2 | ⟨h2, _⟩
    · exact Or.inl (h2.trans h1)
    · exact Or.inl (h2 ▸ h1)
  · rcases hbc with h2 | ⟨h2, h2'⟩
    · exact Or.inl (h1 ▸ h2)
    · exact Or.inr ⟨h1.trans h2, listLexLE_trans _ _ _ h1' h2'⟩

/-- Python's `sorted` is a stable sort; `List.insertionSort` is stable for
the total preorder `rankLE`, hence produces the identical output list. -/
def sortRecords (l : List Record) : List Record :=
  List.insertionSort rankLE l

/-- First record with the given `user_id` (the lookup loop in `do_POST`). -/
def findRec (uid : String) (data : List Record) : Option Record :=
  data.find? (fun r => r.user_id == uid)

/-- The accepted-submission mutation of `do_POST` (src/server.py lines
345-365): update the first record whose `user_id` matches — score only
increases, empty `name`/`avatar` preserve the stored value, `updated_at`
always refreshed — otherwise append a fresh record. -/
def applySubmit (data : List Record) (uid nm : String) (sc : ℚ)
    (av now : String) : List Record :=
  match data with
  | [] => [{ user_id := uid, name := nm, score := sc, avatar := av, updated_at := now }]
  | r :: rest =>
    if r.user_id == uid then
      { r with
        score := if r.score < sc then sc else r.score,
        name := if nm ≠ "" then nm else r.name,
        avatar := if av ≠ "" then av else r.avatar,
        updated_at := now } :: rest
    else
      r :: applySubmit rest uid nm sc av now

/-- Submitted payload after JSON decoding (`payload.get(...)` with `or`
defaults), before the handler's `.strip()` normalisation. -/
structure SubmitPayload where
  user_id : String
  name : String
  score : ℚ
  avatar : String
deriving DecidableEq, Repr

/-- Outcome of one `do_POST` request: the JSON response fields, the
resulting stored collection, and whether `save_data` was invoked. -/
structure PostResult where
  ok : Bool
  error : Option String
  rank : Option Nat
  data : List Record
  saved : Bool
deriving DecidableEq, Repr

/-- Rank computed by `do_POST` after an accepted submission: position of
the submitter in the sort of the FULL collection (no read-path filter). -/
def submitRank (data : List Record) (uid : String) : Option Nat :=
  ((sortRecords data).findIdx? (fun r => r.user_id == uid)).map (· + 1)

/-- The `/api/leaderboard/submit` handler (src/server.py lines 323-377);
`data` is the collection returned by `load_data()`, `now` the value of
`self.date_time_string()`. -/
def do_POST (data : List Record) (p : SubmitPayload) (now : String) : PostResult :=
  let uid := pyStrip p.user_id
  let nm := pyStrip p.name
  let av := pyStrip p.avatar
  let sc := p.score
  if uid = "" ∨ sc ≤ 0 then
    { ok := false, error := some "invalid payload", rank := none,
      data := data, saved := false }
  else
    let data2 := applySubmit data uid nm sc av now
    { ok := true, error := none, rank := submitRank data2 uid,
      data := data2, saved := true }

/-- Read-path validity filter of `do_GET` (src/server.py lines 290-305):
keep entries with a non-empty (stripped) `user_id`, drop entries whose
score is non-positive AND whose stripped name is empty or the sentinel. -/
def isValidEntry (r : Record) : Bool :=
  if pyStrip r.user_id = "" then false
  else if r.score ≤ 0 ∧ (pyStrip r.name = "" ∨ pyStrip r.name = "未知") then false
  else true

/-- The ranked view of `do_GET` (src/server.py lines 290-310): filter,
stable-sort by descending score / ascending `updated_at`, and pair each
record with its 1-based position. -/
def rankedView (data : List Record) : List (Record × Nat) :=
  let s := sortRecords (data.filter isValidEntry)
  s.zip (List.range' 1 s.length)

/-- Rank a given user receives in the ranked read view, if any. -/
def getRank (data : List Record) (uid : String) : Option Nat :=
  ((rankedView data).find? (fun pr => pr.1.user_id == uid)).map Prod.snd

/-! ### JSON model for the load / recovery path -/

/-- Parsed JSON values, as produced by `json.load`. -/
inductive JValue where
  | null : JValue
  | jbool : Bool → JValue
  | num : ℚ → JValue
  | str : String → JValue
  | arr : List JValue → JValue
  | obj : List (String × JValue) → JValue

/-- Python truthiness of a parsed JSON value (`if latest:`). -/
def JValue.truthy : JValue → Bool
  | .null => false
  | .jbool b => b
  | .num q => q ≠ 0
  | .str s => s ≠ ""
  | .arr xs => !xs.isEmpty
  | .obj fs => !fs.isEmpty

/-- Whether the value is a JSON object (`isinstance(x, dict)`). -/
def JValue.isObj : JValue → Bool
  | .obj _ => true
  | _ => false

/-- Shared shape accessor of the backup code:
`data.get('items') if isinstance(data, dict) else (data if isinstance(data, list) else [])`. -/
def getItems (data : JValue) : JValue :=
  match data with
  | .obj fs => (fs.lookup "items").getD .null
  | .arr xs => .arr xs
  | _ => .arr []

/-- Count used by the recovery scan: `len(items) if isinstance(items, list) else 0`
(as an `Int` because `max_count` starts at `-1`). -/
def cntOf (items : JValue) : Int :=
  match items with
  | .arr xs => (xs.length : Int)
  | _ => 0

/-- State of the backup directory: file name to parsed content; `none`
content models a file whose bytes `json.load` rejects. Absent names model
absent files. -/
structure BackupsDir where
  files : List (String × Option JValue)

/-- Model of `_load_json`: `None` both for an absent file and for a file
that fails to parse. -/
def load_json (bd : BackupsDir) (name : String) : Option JValue :=
  match bd.files.lookup name with
  | some c => c
  | none => none

/-- The `latest.json` branch of `_find_best_local_snapshot` (src/server.py
lines 114-119): a truthy parsed value whose item shape is a non-empty
list short-circuits the pattern scan. -/
def latestItems (bd : BackupsDir) : Option (List JValue) :=
  match load_json bd "latest.json" with
  | some lv =>
      if lv.truthy then
        match getItems lv with
        | .arr xs => if xs.isEmpty then none else some xs
        | _ => none
      else none
  | none => none

/-- Directory listing in the order the scan visits it: `sorted(os.listdir(...))`. -/
def listdirSorted (bd : BackupsDir) : List String :=
  List.insertionSort (fun a b : String => strLE a b = true) (bd.files.map Prod.fst)

/-- Candidate filter of the scan: `.json` files whose name starts with one
of the recognized backup prefixes. -/
def isCandidate (name : String) : Bool :=
  strEndsWith name ".json" &&
    (strStartsWith name "backend-live-" || strStartsWith name "data-live-" ||
      strStartsWith name "leaderboard-")

/-- Backup files visited by the pattern scan, in visit order. -/
def candidates (bd : BackupsDir) : List String :=
  (listdirSorted bd).filter isCandidate

/-- One iteration of the scan loop (src/server.py lines 125-137): skip
unparsable files; replace the running best only on a strictly greater
count. -/
def scanStep (bd : BackupsDir) (acc : JValue × Int) (name : String) : JValue × Int :=
  match load_json bd name with
  | none => acc
  | some data =>
      let items := getItems data
      if acc.2 < cntOf items then (items, cntOf items) else acc

/-- The pattern-scan tier of the recovery policy, starting from
`best_items = []`, `max_count = -1`. -/
def scanBest (bd : BackupsDir) : JValue :=
  ((candidates bd).foldl (scanStep bd) (JValue.arr [], -1)).1

/-- Model of `_find_best_local_snapshot` (src/server.py lines 111-140). -/
def find_best_local_snapshot (bd : BackupsDir) : JValue :=
  match latestItems bd with
  | some xs => .arr xs
  | none => scanBest bd

/-- Model of `load_data` (src/server.py lines 142-149). The primary file
state is `none` when the file is absent, `some none` when its bytes fail
to parse, `some (some v)` when they parse to `v`; the first two cases
return the empty list. -/
def load_data (primary : Option (Option JValue)) : JValue :=
  match primary with
  | none => .arr []
  | some none => .arr []
  | some (some v) => v

/-- Fallback trigger of the GET read path (src/server.py line 285):
`not isinstance(data, list) or (len(data) > 0 and not isinstance(data[0], dict))`. -/
def needsFallback (d : JValue) : Bool :=
  match d with
  | .arr [] => false
  | .arr (x :: _) => !x.isObj
  | _ => true

/-- The data-selection part of `do_GET` (src/server.py lines 284-288):
load the primary file, fall back to the best local snapshot when the
loaded value has the wrong shape, and coerce any non-list to `[]`. -/
def do_GET_data (primary : Option (Option JValue)) (bd : BackupsDir) : JValue :=
  let d := load_data primary
  let d2 := if needsFallback d then find_best_local_snapshot bd else d
  match d2 with
  | .arr xs => .arr xs
  | _ => .arr []

/-! ### Backup snapshot model -/

/-- A UTC wall-clock instant, the value of `datetime.datetime.utcnow()`. -/
structure UTCTime where
  year : Nat
  month : Nat
  day : Nat
  hour : Nat
  minute : Nat
  second : Nat
deriving DecidableEq, Repr

/-- Zero-padded decimal rendering, as `strftime` field formatting does. -/
def zpad (w n : Nat) : String :=
  let s := toString n
  String.mk (List.replicate (w - s.length) '0') ++ s

/-- Model of `strftime('%Y%m%d-%H%M%S')` on a UTC instant. -/
def tsFormat (t : UTCTime) : String :=
  zpad 4 t.year ++ zpad 2 t.month ++ zpad 2 t.day ++ "-" ++
    zpad 2 t.hour ++ zpad 2 t.minute ++ zpad 2 t.second

/-- One manifest record `{timestamp, file, count}`. -/
structure ManifestEntry where
  timestamp : String
  file : String
  count : Nat
deriving DecidableEq, Repr

/-- Which of the three best-effort writes of a snapshot succeed. A failed
`_atomic_write_json` swallows its exception and leaves the target file
unchanged. -/
structure WriteOracle where
  latestOk : Bool
  snapOk : Bool
  manifestOk : Bool
deriving DecidableEq, Repr

/-- Typed state of the backup directory as `_save_backup_snapshot` sees
it: the payload items of `latest.json`, the timestamped snapshot files,
and the manifest (`none` when absent or unreadable, which the code treats
as the empty manifest). -/
structure BackupFS where
  latest : Option (List Record)
  snaps : List (String × List Record)
  manifest : Option (List ManifestEntry)
deriving DecidableEq, Repr

/-- Overwrite-or-create for a named file (`os.replace` onto the target). -/
def upsertFile {α : Type} (fs : List (String × α)) (name : String) (v : α) :
    List (String × α) :=
  match fs with
  | [] => [(name, v)]
  | (n, w) :: rest =>
      if n == name then (n, v) :: rest else (n, w) :: upsertFile rest name v

/-- Model of `_save_backup_snapshot` (src/server.py lines 83-109): write
`latest.json`, write `leaderboard-<ts>.json`, append one manifest entry
with `count = len(items)`. Each write is best-effort; the function is
total for every oracle value, modelling that no failure combination
raises to the caller. -/
def save_backup_snapshot (st : BackupFS) (items : List Record) (now : UTCTime)
    (o : WriteOracle) : BackupFS :=
  let ts := tsFormat now
  let snapName := "leaderboard-" ++ ts ++ ".json"
  let st1 := if o.latestOk then { st with latest := some items } else st
  let st2 :=
    if o.snapOk then { st1 with snaps := upsertFile st1.snaps snapName items }
    else st1
  let entries := st2.manifest.getD []
  let entry : ManifestEntry := { timestamp := ts, file := snapName, count := items.length }
  if o.manifestOk then { st2 with manifest := some (entries ++ [entry]) } else st2

/-! ### Request-path event trace model for remote sync -/

/-- Observable effects on the `do_POST` request path, in program order. -/
inductive Event where
  | writePrimary : Event
  | writeBackup : Event
  | syncRemote : Event
  | respondOk : Event
  | respondErr : Event
deriving DecidableEq, Repr

/-- Possible outcomes of `_sync_leaderboard_to_remote()`: a boolean result
or a raised exception. -/
inductive SyncOutcome where
  | success : SyncOutcome
  | failure : SyncOutcome
  | raised : SyncOutcome
deriving DecidableEq, Repr

/-- Result of the sync call as seen by `save_data`'s `try` block. -/
def syncResult : SyncOutcome → Except Unit Bool
  | .success => .ok true
  | .failure => .ok false
  | .raised => .error ()

/-- Effect trace of `save_data` (src/server.py lines 151-164): primary
write, backup snapshot, then the remote sync call — invoked on the same
call path, its result and any exception discarded (both match arms yield
the same continuation). -/
def save_data_trace (so : SyncOutcome) : List Event :=
  match syncResult so with
  | .ok _ => [.writePrimary, .writeBackup, .syncRemote]
  | .error _ => [.writePrimary, .writeBackup, .syncRemote]

/-- Effect trace of one `do_POST` request: an accepted submission runs
`save_data` (including the sync call) before the response is written. -/
def post_trace (valid : Bool) (so : SyncOutcome) : List Event :=
  if valid then save_data_trace so ++ [.respondOk] else [.respondErr]

/-! ### Helper lemmas about the upsert loop -/

theorem findRec_applySubmit_ne (data : List Record) (uid uid2 nm : String)
    (sc : ℚ) (av now : String) (h : uid ≠ uid2) :
    findRec uid (applySubmit data uid2 nm sc av now) = findRec uid data := by
  have h21 : (uid2 == uid) = false := by simp [Ne.symm h]
  induction data with
  | nil =>
    simp [applySubmit, findRec, List.find?, h21]
  | cons r rest ih =>
    by_cases hr : (r.user_id == uid2) = true
    · have hu : (r.user_id == uid) = false := by
        have : r.user_id = uid2 := by simpa using hr
        simp [this, Ne.symm h]
      simp [applySubmit, hr, findRec, List.find?, hu]
    · have hr' : (r.user_id == uid2) = false := by simpa using hr
      by_cases hu : (r.user_id == uid) = true
      · simp [applySubmit, hr', findRec, List.find?, hu]
      · have hu' : (r.user_id == uid) = false := by simpa using hu
        simpa [applySubmit, hr', findRec, List.find?, hu'] using ih

theorem findRec_applySubmit_new (data : List Record) (uid nm : String)
    (sc : ℚ) (av now : String) (h : findRec uid data = none) :
    findRec uid (applySubmit data uid nm sc av now) =
      some { user_id := uid, name := nm, score := sc, avatar := av, updated_at := now } := by
  induction data with
  | nil => simp [applySubmit, findRec, List.find?]
  | cons r rest ih =>
    by_cases hu : (r.user_id == uid) = true
    · simp [findRec, List.find?, hu] at h
    · have hu' : (r.user_id == uid) = false := by simpa using hu
      have htail : findRec uid rest = none := by
        simpa [findRec, List.find?, hu'] using h
      simpa [applySubmit, hu', findRec, List.find?] using ih htail

theorem findRec_applySubmit_found (data : List Record) (uid nm : String)
    (sc : ℚ) (av now : String) (r : Record) (h : findRec uid data = some r) :
    findRec uid (applySubmit data uid nm sc av now) =
      some { r with
        score := if r.score < sc then sc else r.score,
        name := if nm ≠ "" then nm else r.name,
        avatar := if av ≠ "" then av else r.avatar,
        updated_at := now } := by
  induction data with
  | nil => simp [findRec, List.find?] at h
  | cons r0 rest ih =>
    by_cases hu : (r0.user_id == uid) = true
    · have hr0 : r0 = r := by
        simpa [findRec, List.find?, hu] using h
      subst hr0
      simp [applySubmit, hu, findRec, List.find?]
    · have hu' : (r0.user_id == uid) = false := by simpa using hu
      have htail : findRec uid rest = some r := by
        simpa [findRec, List.find?, hu'] using h
      simpa [applySubmit, hu', findRec, List.find?] using ih htail

/-- Keys of the collection after an upsert: unchanged when some record
already carries `uid`, otherwise the old keys with `uid` appended. -/
theorem map_userId_applySubmit (data : List Record) (uid nm : String)
    (sc : ℚ) (av now : String) :
    (applySubmit data uid nm sc av now).map Record.user_id =
      if data.any (fun r => r.user_id == uid) then data.map Record.user_id
      else data.map Record.user_id ++ [uid] := by
  induction data with
  | nil => simp [applySubmit]
  | cons r rest ih =>
    by_cases hu : (r.user_id == uid) = true
    · simp [applySubmit, hu, List.any_cons]
    · have hu' : (r.user_id == uid) = false := by simpa using hu
      by_cases ha : rest.any (fun x => x.user_id == uid)
      · simp [applySubmit, hu', List.any_cons, ha, ih]
      · simp [applySubmit, hu', List.any_cons, ha, ih]

theorem ite_lt_eq_max (a b : ℚ) : (if a < b then b else a) = max a b := by
  by_cases h : a < b
  · simp [h, max_eq_right h.le]
  · simp [h, max_eq_left (not_lt.mp h)]

/-- The stored collection after one request: unchanged on rejection,
upserted on acceptance. -/
theorem do_POST_data_eq (data : List Record) (p : SubmitPayload) (now : String) :
    (do_POST data p now).data =
      if pyStrip p.user_id = "" ∨ p.score ≤ 0 then data
      else applySubmit data (pyStrip p.user_id) (pyStrip p.name) p.score
        (pyStrip p.avatar) now := by
  by_cases h : pyStrip p.user_id = "" ∨ p.score ≤ 0 <;> simp [do_POST, h]

/-! ### Claim C5 -/

/-- C5: a submission whose stripped `user_id` is empty or whose score is
not strictly positive is rejected with the explicit error result, no
record is created or mutated (the stored collection is returned
unchanged), and no file write occurs (`saved = false`). -/
theorem C5_invalid_submit_rejected (data : List Record) (p : SubmitPayload)
    (now : String) (h : pyStrip p.user_id = "" ∨ p.score ≤ 0) :
    do_POST data p now =
      { ok := false, error := some "invalid payload", rank := none,
        data := data, saved := false } := by
  simp [do_POST, h]

theorem C5_invalid_submit_rejected_witness :
    (pyStrip "u1" = "" ∨ (0 : ℚ) ≤ 0) ∧
      do_POST [] { user_id := "u1", name := "a", score := 0, avatar := "" } "t" =
        { ok := false, error := some "invalid payload", rank := none,
          data := [], saved := false } :=
  ⟨by decide,
    C5_invalid_submit_rejected [] { user_id := "u1", name := "a", score := 0, avatar := "" }
      "t" (by decide)⟩

/-! ### Claim C6 -/

/-- C6: an accepted submission for an existing `user_id` preserves the
stored `name` when the new name is empty and the stored `avatar` when the
new avatar is empty, always refreshes `updated_at`, and never lowers the
stored score (it becomes the max of the old and the submitted score). -/
theorem C6_upsert_preserves_fields (data : List Record) (uid nm : String)
    (sc : ℚ) (av now : String) (r : Record) (h : findRec uid data = some r) :
    ((findRec uid (applySubmit data uid nm sc av now)).map Record.updated_at = some now) ∧
    (nm = "" → (findRec uid (applySubmit data uid nm sc av now)).map Record.name = some r.name) ∧
    (av = "" → (findRec uid (applySubmit data uid nm sc av now)).map Record.avatar = some r.avatar) ∧
    ((findRec uid (applySubmit data uid nm sc av now)).map Record.score = some (max r.score sc)) := by
  have hf := findRec_applySubmit_found data uid nm sc av now r h
  refine ⟨by simp [hf], ?_, ?_, by simp [hf, ite_lt_eq_max]⟩
  · intro hnm
    subst hnm
    rw [hf]
    simp
  · intro hav
    subst hav
    rw [hf]
    simp

theorem C6_upsert_preserves_fields_witness :
    (findRec "u1"
        [{ user_id := "u1", name := "Alice", score := 10, avatar := "", updated_at := "t1" }] =
      some { user_id := "u1", name := "Alice", score := 10, avatar := "", updated_at := "t1" }) ∧
    ((findRec "u1" (applySubmit
        [{ user_id := "u1", name := "Alice", score := 10, avatar := "", updated_at := "t1" }]
        "u1" "" 5 "" "t2")).map Record.name = some "Alice") ∧
    ((findRec "u1" (applySubmit
        [{ user_id := "u1", name := "Alice", score := 10, avatar := "", updated_at := "t1" }]
        "u1" "" 5 "" "t2")).map Record.score = some 10) ∧
    ((findRec "u1" (applySubmit
        [{ user_id := "u1", name := "Alice", score := 10, avatar := "", updated_at := "t1" }]
        "u1" "" 5 "" "t2")).map Record.updated_at = some "t2") := by
  have h := C6_upsert_preserves_fields
    [{ user_id := "u1", name := "Alice", score := 10, avatar := "", updated_at := "t1" }]
    "u1" "" 5 "" "t2"
    { user_id := "u1", name := "Alice", score := 10, avatar := "", updated_at := "t1" }
    (by decide)
  refine ⟨by decide, h.2.1 rfl, ?_, h.1⟩
  exact (h.2.2.2).trans (by decide)

/-! ### Claim C9 -/

/-- C9: the upsert preserves the at-most-one-record-per-`user_id`
invariant: if the stored keys are distinct before a request, they remain
distinct afterwards (rejected requests leave the collection unchanged;
accepted ones update the matching record in place or append a fresh key). -/
theorem C9_upsert_preserves_unique_keys (data : List Record) (p : SubmitPayload)
    (now : String) (h : (data.map Record.user_id).Nodup) :
    (((do_POST data p now).data).map Record.user_id).Nodup := by
  rw [do_POST_data_eq]
  by_cases hv : pyStrip p.user_id = "" ∨ p.score ≤ 0
  · simpa [hv] using h
  · rw [if_neg hv, map_userId_applySubmit]
    by_cases ha : data.any (fun r => r.user_id == pyStrip p.user_id)
    · simpa [ha] using h
    · have hnm : pyStrip p.user_id ∉ data.map Record.user_id := by
        intro hmem
        obtain ⟨r, hr, hru⟩ := List.mem_map.mp hmem
        have : data.any (fun x => x.user_id == pyStrip p.user_id) = true :=
          List.any_eq_true.mpr ⟨r, hr, by simp [hru]⟩
        exact ha this
      simp [ha, List.nodup_append, h, hnm]

theorem C9_upsert_preserves_unique_keys_witness :
    (([{ user_id := "u1", name := "A", score := 3, avatar := "", updated_at := "t0" }].map
        Record.user_id).Nodup) ∧
    (((do_POST [{ user_id := "u1", name := "A", score := 3, avatar := "", updated_at := "t0" }]
        { user_id := "u2", name := "B", score := 4, avatar := "" } "t1").data).map
        Record.user_id).Nodup :=
  ⟨by decide,
    C9_upsert_preserves_unique_keys
      [{ user_id := "u1", name := "A", score := 3, avatar := "", updated_at := "t0" }]
      { user_id := "u2", name := "B", score := 4, avatar := "" } "t1" (by decide)⟩

/-! ### Claim C3 -/

/-- A sequence of submit requests, each a payload with its request time,
processed one after the other through the handler. -/
def runSubmits (data : List Record) (subs : List (SubmitPayload × String)) :
    List Record :=
  subs.foldl (fun d s => (do_POST d s.1 s.2).data) data

/-- Scores submitted for a given (stripped) `user_id` along a sequence. -/
def scoresFor (uid : String) (subs : List (SubmitPayload × String)) : List ℚ :=
  (subs.filter (fun s => pyStrip s.1.user_id == uid)).map (fun s => s.1.score)

/-- Running best: the stored score after absorbing one more submitted
score (the first submission creates the record, later ones take the max). -/
def combineMax (o : Option ℚ) (q : ℚ) : Option ℚ :=
  some (match o with | none => q | some m => max m q)

theorem findRec_runSubmits (uid : String) (subs : List (SubmitPayload × String)) :
    ∀ (data : List Record), uid ≠ "" →
    (∀ s ∈ subs, pyStrip s.1.user_id = uid → 0 < s.1.score) →
    (findRec uid (runSubmits data subs)).map Record.score =
      (scoresFor uid subs).foldl combineMax ((findRec uid data).map Record.score) := by
  induction subs with
  | nil => intro data _ _; rfl
  | cons s rest ih =>
    intro data hne hval
    have hstep : runSubmits data (s :: rest) = runSubmits ((do_POST data s.1 s.2).data) rest := rfl
    by_cases hs : pyStrip s.1.user_id = uid
    · have hpos : 0 < s.1.score := hval s (by simp) hs
      have hnot : ¬ (pyStrip s.1.user_id = "" ∨ s.1.score ≤ 0) := by
        rw [hs]
        push_neg
        exact ⟨hne, hpos⟩
      have hdata : (do_POST data s.1 s.2).data =
          applySubmit data uid (pyStrip s.1.name) s.1.score (pyStrip s.1.avatar) s.2 := by
        rw [do_POST_data_eq, if_neg hnot, hs]
      have hsf : scoresFor uid (s :: rest) = s.1.score :: scoresFor uid rest := by
        simp [scoresFor, hs]
      have hinit : (findRec uid ((do_POST data s.1 s.2).data)).map Record.score =
          combineMax ((findRec uid data).map Record.score) s.1.score := by
        rw [hdata]
        cases hfr : findRec uid data with
        | none =>
          rw [findRec_applySubmit_new data uid _ _ _ _ hfr]
          rfl
        | some r =>
          rw [findRec_applySubmit_found data uid _ _ _ _ r hfr]
          simp [combineMax, ite_lt_eq_max]
      rw [hstep, ih _ hne (fun t ht hh => hval t (by simp [ht]) hh), hsf, hinit]
      rfl
    · have hsf : scoresFor uid (s :: rest) = scoresFor uid rest := by
        simp [scoresFor, hs]
      have hinit : findRec uid ((do_POST data s.1 s.2).data) = findRec uid data := by
        rw [do_POST_data_eq]
        by_cases hrej : pyStrip s.1.user_id = "" ∨ s.1.score ≤ 0
        · rw [if_pos hrej]
        · rw [if_neg hrej]
          exact findRec_applySubmit_ne data uid _ _ _ _ _ (fun he => hs he.symm)
      rw [hstep, ih _ hne (fun t ht hh => hval t (by simp [ht]) hh), hsf, hinit]

theorem foldl_combineMax_some (t : List ℚ) : ∀ m : ℚ,
    t.foldl combineMax (some m) = some (t.foldl max m) := by
  induction t with
  | nil => intro m; rfl
  | cons b t2 ih => intro m; simpa [combineMax] using ih (max m b)

theorem foldl_combineMax_pos (l : List ℚ) (hl : l ≠ [])
    (hpos : ∀ q ∈ l, 0 < q) :
    l.foldl combineMax none = some (l.foldl max 0) := by
  match l with
  | a :: t =>
    have h1 : (a :: t).foldl combineMax none = t.foldl combineMax (some a) := rfl
    rw [h1, foldl_combineMax_some]
    have ha : max (0 : ℚ) a = a := max_eq_right (hpos a (by simp)).le
    have h2 : (a :: t).foldl max 0 = t.foldl max a := by
      simp [List.foldl, ha]
    rw [h2]

/-- C3: along any sequence of submissions, the stored score of a user
who had no record initially and whose submissions were all accepted
equals the maximum of all scores submitted for that `user_id` (so a
resubmission with a lower score never regresses the stored best). -/
theorem C3_stored_score_is_max (data : List Record) (uid : String)
    (subs : List (SubmitPayload × String))
    (h0 : findRec uid data = none) (hne : uid ≠ "")
    (hval : ∀ s ∈ subs, pyStrip s.1.user_id = uid → 0 < s.1.score)
    (hsome : scoresFor uid subs ≠ []) :
    (findRec uid (runSubmits data subs)).map Record.score =
      some ((scoresFor uid subs).foldl max 0) := by
  have hmain := findRec_runSubmits uid subs data hne hval
  rw [h0] at hmain
  have hpos : ∀ q ∈ scoresFor uid subs, 0 < q := by
    intro q hq
    obtain ⟨s, hs, hq2⟩ := List.mem_map.mp hq
    obtain ⟨hsmem, hsuid⟩ := List.mem_filter.mp hs
    exact hq2 ▸ hval s hsmem (by simpa using hsuid)
  calc (findRec uid (runSubmits data subs)).map Record.score
      = (scoresFor uid subs).foldl combineMax none := hmain
    _ = some ((scoresFor uid subs).foldl max 0) :=
        foldl_combineMax_pos _ hsome hpos

theorem C3_stored_score_is_max_witness :
    (findRec "u1" (runSubmits []
      [({ user_id := "u1", name := "A", score := 10, avatar := "" }, "t1"),
       ({ user_id := "u1", name := "A", score := 5, avatar := "" }, "t2"),
       ({ user_id := "u2", name := "B", score := 99, avatar := "" }, "t3")])).map Record.score =
      some 10 := by
  have h := C3_stored_score_is_max []  "u1"
    [({ user_id := "u1", name := "A", score := 10, avatar := "" }, "t1"),
     ({ user_id := "u1", name := "A", score := 5, avatar := "" }, "t2"),
     ({ user_id := "u2", name := "B", score := 99, avatar := "" }, "t3")]
    rfl (by decide) (by decide) (by decide)
  exact h.trans (by decide)

/-! ### Claim C4 -/

/-- C4: the ranked read keeps exactly the valid entries (a permutation of
the filtered collection: dropped are entries lacking a `user_id` and
placeholder entries with non-positive score and empty/sentinel name),
orders them so each record ranks no worse than the next (descending
score, ties by ascending `updated_at`), and assigns ranks that are
exactly `1..N` for the `N` surviving records. -/
theorem C4_ranked_view_sound (data : List Record) :
    ((rankedView data).map Prod.snd =
        List.range' 1 (data.filter isValidEntry).length) ∧
    ((rankedView data).map Prod.fst).Perm (data.filter isValidEntry) ∧
    List.Pairwise rankLE ((rankedView data).map Prod.fst) := by
  have hlen : (sortRecords (data.filter isValidEntry)).length =
      (data.filter isValidEntry).length := by
    simp [sortRecords]
  have hfst : (rankedView data).map Prod.fst = sortRecords (data.filter isValidEntry) := by
    unfold rankedView
    exact List.map_fst_zip _ _ (by simp [List.length_range'])
  refine ⟨?_, ?_, ?_⟩
  · unfold rankedView
    rw [List.map_snd_zip _ _ (by simp [List.length_range'])]
    rw [hlen]
  · rw [hfst]
    exact List.perm_insertionSort rankLE _
  · rw [hfst]
    exact List.sorted_insertionSort rankLE _

/-! ### Claim C10 -/

/-- C10: the rank returned by an accepted submission is computed over the
full stored collection without the read-path filter, so it can differ
from the rank the same user receives in the ranked read view. Concretely:
with a stored entry lacking a `user_id` but carrying score 100, a new
submission of score 5 is reported at rank 2 by `do_POST`, while the
ranked read (which filters that entry out) shows the same user at rank 1. -/
theorem C10_submit_rank_unfiltered :
    ((do_POST [{ user_id := "", name := "X", score := 100, avatar := "", updated_at := "t0" }]
        { user_id := "u1", name := "Bob", score := 5, avatar := "" } "t1").rank = some 2) ∧
    (getRank (do_POST [{ user_id := "", name := "X", score := 100, avatar := "", updated_at := "t0" }]
        { user_id := "u1", name := "Bob", score := 5, avatar := "" } "t1").data "u1" = some 1) ∧
    ((do_POST [{ user_id := "", name := "X", score := 100, avatar := "", updated_at := "t0" }]
        { user_id := "u1", name := "Bob", score := 5, avatar := "" } "t1").rank ≠
      getRank (do_POST [{ user_id := "", name := "X", score := 100, avatar := "", updated_at := "t0" }]
        { user_id := "u1", name := "Bob", score := 5, avatar := "" } "t1").data "u1") := by
  refine ⟨by decide, by decide, by decide⟩

/-! ### Claim C1 -/

/-- A record-shaped backup item used by the concrete read-path scenarios. -/
def sampleItem : JValue :=
  .obj [("user_id", .str "u1"), ("score", .num 10)]

/-- A backup directory holding a non-empty recoverable `latest.json`. -/
def sampleBackups : BackupsDir :=
  ⟨[("latest.json", some (.obj [("items", .arr [sampleItem])]))]⟩

/-- C1 counterexample: with a non-empty recoverable backup present, a
read with the primary file absent (or unparsable) returns the empty
collection, not the backup snapshot — `load_data` maps both cases to
`[]`, which is a list, so the GET fallback never fires for them. -/
theorem C1_counterexample :
    do_GET_data none sampleBackups = .arr [] ∧
    do_GET_data (some none) sampleBackups = .arr [] ∧
    find_best_local_snapshot sampleBackups = .arr [sampleItem] ∧
    JValue.arr [sampleItem] ≠ JValue.arr [] :=
  ⟨rfl, rfl, rfl, by simp⟩

/-- C1 (amended): the read path falls back to the Backup Chain's best
recoverable snapshot only when the primary file decodes to a value of
the wrong shape (not a list, or a non-empty list whose first element is
not an object); when the primary file is absent or contains invalid
JSON, `load_data` returns the empty collection and no fallback occurs. -/
theorem C1_read_fallback_amended (primary : Option (Option JValue)) (bd : BackupsDir) :
    (∀ v xs, primary = some (some v) → needsFallback v = true →
      find_best_local_snapshot bd = .arr xs → do_GET_data primary bd = .arr xs) ∧
    ((primary = none ∨ primary = some none) → do_GET_data primary bd = .arr []) := by
  constructor
  · intro v xs hp hf hs
    subst hp
    simp [do_GET_data, load_data, hf, hs]
  · rintro (hp | hp) <;> subst hp <;> rfl

theorem C1_read_fallback_amended_witness :
    do_GET_data (some (some (.obj []))) sampleBackups = .arr [sampleItem] ∧
    do_GET_data none sampleBackups = .arr [] :=
  ⟨(C1_read_fallback_amended (some (some (.obj []))) sampleBackups).1
      (.obj []) [sampleItem] rfl rfl rfl,
    (C1_read_fallback_amended none sampleBackups).2 (Or.inl rfl)⟩

/-! ### Claim C2 -/

/-- Pure form of one scan step, acting on an already-decoded candidate
pair (item shape, count). -/
def pureStep (acc p : JValue × Int) : JValue × Int :=
  if acc.2 < p.2 then p else acc

/-- Decoded candidates of the pattern scan, in visit order, with their
record counts; unparsable files are skipped, as the loop's `continue`
does. -/
def scannedInfos (bd : BackupsDir) : List (JValue × Int) :=
  (candidates bd).filterMap
    (fun n => (load_json bd n).map (fun d => (getItems d, cntOf (getItems d))))

/-- Running maximum of candidate counts over a scan seeded with `m`. -/
def maxCnts (l : List (JValue × Int)) (m : Int) : Int :=
  l.foldl (fun a p => max a p.2) m

theorem foldl_scanStep_eq (bd : BackupsDir) :
    ∀ (names : List String) (acc : JValue × Int),
    names.foldl (scanStep bd) acc =
      (names.filterMap
        (fun n => (load_json bd n).map (fun d => (getItems d, cntOf (getItems d))))).foldl
        pureStep acc
  | [], _ => rfl
  | n :: ns, acc => by
    cases h : load_json bd n with
    | none =>
      have h1 : scanStep bd acc n = acc := by simp [scanStep, h]
      simp only [List.foldl_cons, List.filterMap_cons, h, h1]
      exact foldl_scanStep_eq bd ns acc
    | some d =>
      have h1 : scanStep bd acc n = pureStep acc (getItems d, cntOf (getItems d)) := by
        simp [scanStep, h, pureStep]
      simp only [List.foldl_cons, List.filterMap_cons, h, Option.map_some', h1]
      exact foldl_scanStep_eq bd ns _

theorem le_maxCnts : ∀ (l : List (JValue × Int)) (m : Int), m ≤ maxCnts l m
  | [], m => le_refl m
  | p :: ps, m => le_trans (le_max_left m p.2) (le_maxCnts ps (max m p.2))

theorem elem_le_maxCnts : ∀ (l : List (JValue × Int)) (m : Int) (p : JValue × Int),
    p ∈ l → p.2 ≤ maxCnts l m
  | p0 :: ps, m, p, h => by
    rcases List.mem_cons.mp h with h | h
    · subst h
      exact le_trans (le_max_right m p.2) (le_maxCnts ps _)
    · exact elem_le_maxCnts ps (max m p0.2) p h

theorem maxCnts_all_le : ∀ (l : List (JValue × Int)) (m : Int),
    (∀ p ∈ l, p.2 ≤ m) → maxCnts l m = m
  | [], _, _ => rfl
  | p :: ps, m, h => by
    have h1 : max m p.2 = m := max_eq_left (h p (by simp))
    have h2 := maxCnts_all_le ps m (fun q hq => h q (by simp [hq]))
    show maxCnts ps (max m p.2) = m
    rw [h1]
    exact h2

theorem maxCnts_attained : ∀ (l : List (JValue × Int)) (m : Int),
    maxCnts l m = m ∨ ∃ p ∈ l, p.2 = maxCnts l m
  | [], m => Or.inl rfl
  | p :: ps, m => by
    rcases maxCnts_attained ps (max m p.2) with h | ⟨q, hq, hq2⟩
    · by_cases hm : p.2 ≤ m
      · left
        show maxCnts ps (max m p.2) = m
        rw [max_eq_left hm] at h ⊢
        exact h
      · right
        refine ⟨p, by simp, ?_⟩
        show p.2 = maxCnts ps (max m p.2)
        rw [h, max_eq_right (le_of_not_le hm)]
    · right
      exact ⟨q, by simp [hq], hq2⟩

theorem foldl_pureStep_all_le : ∀ (l : List (JValue × Int)) (acc : JValue × Int),
    (∀ p ∈ l, p.2 ≤ acc.2) → l.foldl pureStep acc = acc
  | [], _, _ => rfl
  | p :: ps, acc, h => by
    have hp : ¬ acc.2 < p.2 := not_lt.mpr (h p (by simp))
    have h1 : pureStep acc p = acc := by simp [pureStep, hp]
    show List.foldl pureStep (pureStep acc p) ps = acc
    rw [h1]
    exact foldl_pureStep_all_le ps acc (fun q hq => h q (by simp [hq]))

/-- The scan loop returns the first decoded candidate whose count equals
the maximum count (a later candidate replaces the running best only on a
strictly greater count). -/
theorem foldl_pureStep_find : ∀ (l : List (JValue × Int)) (b : JValue) (m : Int),
    (∃ p ∈ l, m < p.2) →
    l.foldl pureStep (b, m) =
      (l.find? (fun p => decide (p.2 = maxCnts l m))).getD (b, m)
  | [], b, m, h => by simp at h
  | p :: ps, b, m, h => by
    obtain ⟨pv, pc⟩ := p
    have hcons : ((pv, pc) :: ps).foldl pureStep (b, m) =
        ps.foldl pureStep (pureStep (b, m) (pv, pc)) := rfl
    have hmx : maxCnts ((pv, pc) :: ps) m = maxCnts ps (max m pc) := rfl
    by_cases hp : m < pc
    · have hstep : pureStep (b, m) (pv, pc) = (pv, pc) := by simp [pureStep, hp]
      have hmax : max m pc = pc := max_eq_right hp.le
      have hpred : maxCnts ((pv, pc) :: ps) m = maxCnts ps pc := by rw [hmx, hmax]
      by_cases hq : ∃ q ∈ ps, pc < q.2
      · obtain ⟨q, hqm, hql⟩ := hq
        have hlt : pc < maxCnts ps pc :=
          lt_of_lt_of_le hql (elem_le_maxCnts ps pc q hqm)
        have hhead : decide (pc = maxCnts ((pv, pc) :: ps) m) = false := by
          simp [hpred, ne_of_lt hlt]
        have ihp := foldl_pureStep_find ps pv pc ⟨q, hqm, hql⟩
        rcases maxCnts_attained ps pc with hc | ⟨q2, hq2m, hq2e⟩
        · rw [hc] at hlt
          exact absurd hlt (lt_irrefl _)
        · have hsome : (ps.find? (fun x => decide (x.2 = maxCnts ps pc))).isSome :=
            List.find?_isSome.mpr ⟨q2, hq2m, by simp [hq2e]⟩
          obtain ⟨y, hy⟩ := Option.isSome_iff_exists.mp hsome
          rw [hcons, hstep, ihp]
          simp only [List.find?, hhead]
          simp only [hpred, hy]
          rfl
      · push_neg at hq
        have hfold : ps.foldl pureStep (pv, pc) = (pv, pc) :=
          foldl_pureStep_all_le ps (pv, pc) hq
        have hmc : maxCnts ((pv, pc) :: ps) m = pc := by
          rw [hpred]
          exact maxCnts_all_le ps pc hq
        have hhead : decide (pc = maxCnts ((pv, pc) :: ps) m) = true := by
          simp [hmc]
        rw [hcons, hstep, hfold]
        simp only [List.find?, hhead]
        rfl
    · have hple : pc ≤ m := not_lt.mp hp
      have hstep : pureStep (b, m) (pv, pc) = (b, m) := by simp [pureStep, hp]
      obtain ⟨q, hqm, hql⟩ := h
      have hqps : q ∈ ps := by
        rcases List.mem_cons.mp hqm with he | he
        · subst he
          exact absurd hql hp
        · exact he
      have ih := foldl_pureStep_find ps b m ⟨q, hqps, hql⟩
      have hmc : maxCnts ((pv, pc) :: ps) m = maxCnts ps m := by
        rw [hmx, max_eq_left hple]
      have hlt : m < maxCnts ps m := lt_of_lt_of_le hql (elem_le_maxCnts ps m q hqps)
      have hhead : decide (pc = maxCnts ((pv, pc) :: ps) m) = false := by
        simp [hmc, ne_of_lt (lt_of_le_of_lt hple hlt)]
      rw [hcons, hstep, ih]
      simp only [List.find?, hhead]
      simp only [hmc]

theorem scannedInfos_nonneg (bd : BackupsDir) :
    ∀ p ∈ scannedInfos bd, (0 : Int) ≤ p.2 := by
  intro p hp
  obtain ⟨n, _, hsome⟩ := List.mem_filterMap.mp hp
  obtain ⟨d, _, hpd⟩ := Option.map_eq_some'.mp hsome
  rw [← hpd]
  show (0 : Int) ≤ cntOf (getItems d)
  cases getItems d <;> simp [cntOf]

/-- Two pattern-matching backups with equal record counts and different
contents, listed here out of name order to exercise the sorted scan. -/
def tieBackups : BackupsDir :=
  ⟨[("leaderboard-b.json", some (.obj [("items", .arr [.str "B"])])),
    ("leaderboard-a.json", some (.obj [("items", .arr [.str "A"])]))]⟩

/-- C2 counterexample: on a count tie the scan keeps the FIRST file in
filename ascending order (`cnt > max_count` is strict), so with equal
counts the recovery returns `leaderboard-a.json`'s items, not the last
scanned file's items as the claim states. -/
theorem C2_counterexample :
    find_best_local_snapshot tieBackups = .arr [.str "A"] ∧
    JValue.arr [.str "A"] ≠ JValue.arr [.str "B"] :=
  ⟨rfl, by simp⟩

/-- C2 (amended): recovery policy — (a) a `latest.json` that decodes to a
non-empty collection is returned; (b) otherwise the pattern scan returns
the items of the FIRST candidate (filename ascending) whose count equals
the maximum count, a later candidate winning only with a strictly
greater count (with counts [3, 7, 5] the 7-count snapshot is returned);
(c) with no decodable candidates an empty collection is returned. -/
theorem C2_recover_policy_amended (bd : BackupsDir) :
    (∀ xs, latestItems bd = some xs → find_best_local_snapshot bd = .arr xs) ∧
    (latestItems bd = none → scannedInfos bd = [] →
      find_best_local_snapshot bd = .arr []) ∧
    (latestItems bd = none → scannedInfos bd ≠ [] →
      find_best_local_snapshot bd =
        (((scannedInfos bd).find?
            (fun p => decide (p.2 = maxCnts (scannedInfos bd) (-1)))).map Prod.fst).getD
          (.arr [])) := by
  refine ⟨?_, ?_, ?_⟩
  · intro xs hl
    unfold find_best_local_snapshot
    rw [hl]
  · intro hl he
    unfold find_best_local_snapshot
    rw [hl]
    unfold scanBest
    rw [foldl_scanStep_eq bd (candidates bd) (JValue.arr [], -1)]
    show ((scannedInfos bd).foldl pureStep (JValue.arr [], -1)).1 = JValue.arr []
    rw [he]
    rfl
  · intro hl hne
    have hpos := scannedInfos_nonneg bd
    obtain ⟨p0, hp0⟩ := List.exists_mem_of_ne_nil _ hne
    have hex : ∃ p ∈ scannedInfos bd, (-1 : Int) < p.2 :=
      ⟨p0, hp0, lt_of_lt_of_le (by norm_num) (hpos p0 hp0)⟩
    unfold find_best_local_snapshot
    rw [hl]
    unfold scanBest
    rw [foldl_scanStep_eq bd (candidates bd) (JValue.arr [], -1)]
    show ((scannedInfos bd).foldl pureStep (JValue.arr [], -1)).1 = _
    rw [foldl_pureStep_find (scannedInfos bd) (JValue.arr []) (-1) hex]
    cases (scannedInfos bd).find?
        (fun p => decide (p.2 = maxCnts (scannedInfos bd) (-1))) with
    | none => rfl
    | some y => rfl

/-- The spec's recovery scenario: pattern-matching backups with record
counts 3, 7 and 5 respectively, and no `latest.json`. -/
def scenarioBackups : BackupsDir :=
  ⟨[("leaderboard-1.json", some (.obj [("items", .arr (List.replicate 3 (.str "x")))])),
    ("leaderboard-2.json", some (.obj [("items", .arr (List.replicate 7 (.str "y")))])),
    ("leaderboard-3.json", some (.obj [("items", .arr (List.replicate 5 (.str "z")))]))]⟩

theorem C2_recover_policy_amended_witness :
    find_best_local_snapshot scenarioBackups = .arr (List.replicate 7 (.str "y")) := by
  have h := (C2_recover_policy_amended scenarioBackups).2.2 rfl
    (fun he => absurd (congrArg List.length he) (by decide))
  exact h.trans (by rfl)

/-! ### Claim C7 -/

/-- C7 counterexample: remote sync does NOT run asynchronously from the
request path — on an accepted submission the handler's own call path
performs the sync (inside `save_data`) strictly before the response is
written, so write success is reported only after sync completion, even
when the sync fails. -/
theorem C7_counterexample :
    post_trace true .failure =
      [.writePrimary, .writeBackup, .syncRemote, .respondOk] ∧
    (post_trace true .failure).findIdx (fun e => e == Event.syncRemote) <
      (post_trace true .failure).findIdx (fun e => e == Event.respondOk) :=
  ⟨rfl, by decide⟩

/-- C7 (amended): remote sync runs synchronously on the request path —
the sync call happens before the response event in the handler's own
trace — but its outcome (success, failure, or a raised exception) is
swallowed and never alters the trace: the write request still reports
success, identically to the all-success run. Only the background file
watcher syncs off the request thread. -/
theorem C7_sync_on_request_path_amended (so : SyncOutcome) :
    post_trace true so = [.writePrimary, .writeBackup, .syncRemote, .respondOk] ∧
    (post_trace true so).findIdx (fun e => e == Event.syncRemote) <
      (post_trace true so).findIdx (fun e => e == Event.respondOk) ∧
    post_trace true so = post_trace true .success := by
  cases so <;> exact ⟨rfl, by decide, rfl⟩

/-! ### Claim C8 -/

theorem lookup_upsertFile {α : Type} : ∀ (fs : List (String × α)) (name : String) (v : α),
    (upsertFile fs name v).lookup name = some v
  | [], name, v => by simp [upsertFile, List.lookup]
  | (n, w) :: rest, name, v => by
    by_cases h : n = name
    · subst h
      simp [upsertFile, List.lookup]
    · have h1 : (n == name) = false := by simp [h]
      have h2 : (name == n) = false := by simp [Ne.symm h]
      simp [upsertFile, h1, List.lookup, h2, lookup_upsertFile rest name v]

/-- C8: one snapshot operation performs three best-effort writes — it
overwrites `latest.json` with the current collection, creates the file
`leaderboard-<YYYYMMDD-HHMMSS>.json` (UTC instant, second resolution)
holding the same collection, and appends one manifest entry
`{timestamp, file, count}` with `count` the collection's length. Each
write that fails is swallowed, leaving its target unchanged, and no
failure combination prevents the operation from returning to its caller
(the function is total over every oracle). -/
theorem C8_snapshot_three_writes (st : BackupFS) (items : List Record)
    (now : UTCTime) (o : WriteOracle) :
    ((o.latestOk = true → (save_backup_snapshot st items now o).latest = some items) ∧
     (o.latestOk = false → (save_backup_snapshot st items now o).latest = st.latest)) ∧
    ((o.snapOk = true →
        (save_backup_snapshot st items now o).snaps.lookup
          ("leaderboard-" ++ tsFormat now ++ ".json") = some items) ∧
     (o.snapOk = false → (save_backup_snapshot st items now o).snaps = st.snaps)) ∧
    ((o.manifestOk = true → (save_backup_snapshot st items now o).manifest =
        some (st.manifest.getD [] ++
          [{ timestamp := tsFormat now,
             file := "leaderboard-" ++ tsFormat now ++ ".json",
             count := items.length }])) ∧
     (o.manifestOk = false →
        (save_backup_snapshot st items now o).manifest = st.manifest)) := by
  obtain ⟨lo, sp, mo⟩ := o
  cases lo <;> cases sp <;> cases mo <;>
    refine ⟨⟨?_, ?_⟩, ⟨?_, ?_⟩, ⟨?_, ?_⟩⟩ <;> intro h <;>
    simp_all [save_backup_snapshot, lookup_upsertFile]

theorem C8_snapshot_three_writes_witness :
    tsFormat ⟨2025, 10, 6, 1, 2, 3⟩ = "20251006-010203" ∧
    (save_backup_snapshot ⟨none, [], none⟩
        [{ user_id := "u1", name := "A", score := 3, avatar := "", updated_at := "t" }]
        ⟨2025, 10, 6, 1, 2, 3⟩ ⟨true, true, true⟩).latest =
      some [{ user_id := "u1", name := "A", score := 3, avatar := "", updated_at := "t" }] ∧
    (save_backup_snapshot ⟨none, [], none⟩
        [{ user_id := "u1", name := "A", score := 3, avatar := "", updated_at := "t" }]
        ⟨2025, 10, 6, 1, 2, 3⟩ ⟨true, true, true⟩).snaps.lookup
      ("leaderboard-" ++ tsFormat ⟨2025, 10, 6, 1, 2, 3⟩ ++ ".json") =
      some [{ user_id := "u1", name := "A", score := 3, avatar := "", updated_at := "t" }] ∧
    (save_backup_snapshot ⟨none, [], none⟩
        [{ user_id := "u1", name := "A", score := 3, avatar := "", updated_at := "t" }]
        ⟨2025, 10, 6, 1, 2, 3⟩ ⟨true, true, true⟩).manifest =
      some [{ timestamp := tsFormat ⟨2025, 10, 6, 1, 2, 3⟩,
              file := "leaderboard-" ++ tsFormat ⟨2025, 10, 6, 1, 2, 3⟩ ++ ".json",
              count := 1 }] := by
  have h := C8_snapshot_three_writes ⟨none, [], none⟩
    [{ user_id := "u1", name := "A", score := 3, avatar := "", updated_at := "t" }]
    ⟨2025, 10, 6, 1, 2, 3⟩ ⟨true, true, true⟩
  exact ⟨by decide, h.1.1 rfl, h.2.1.1 rfl, (h.2.2.1 rfl).trans (by decide)⟩
